import Mathlib

/-!
Verification of the pet-age conversion core (`src/lib/age-utils.ts`) against
its specification.  The three core functions are embedded shallowly:
TypeScript numbers are modelled as rationals (the spec treats them as real
numbers and all operations used are field operations and comparisons),
arrays as lists, and `[...new Set(xs)]` as a left fold inserting each
element that has not been seen yet at the end of the accumulator, which is
exactly the insertion-order semantics of a JavaScript `Set` spread.
-/

set_option autoImplicit false

namespace AgeUtils

/-- One row of the reference dataset (`PetAgeData` in `src/lib/types.ts`). -/
structure PetAgeData where
  species : String
  breed : String
  firstPhaseYears : ℚ
  firstPhaseValue : ℚ
  laterPerYear : ℚ
deriving Repr, DecidableEq

/-- Embedding of `calculateHumanAge` from `src/lib/age-utils.ts`: find the first record
matching the (species, breed) pair; if none, return `none`; otherwise apply
the piecewise aging model. -/
def calculateHumanAge (species breed : String) (petAge : ℚ)
    (data : List PetAgeData) : Option ℚ :=
  match data.find? (fun item => item.species == species && item.breed == breed) with
  | none => none
  | some entry =>
    if petAge ≤ entry.firstPhaseYears then
      some (petAge * entry.firstPhaseValue)
    else
      some (entry.firstPhaseYears * entry.firstPhaseValue +
        (petAge - entry.firstPhaseYears) * entry.laterPerYear)

/-- Insertion step of a JavaScript `Set` built by iteration: append the
element unless it is already present. -/
def insertUnique (acc : List String) (s : String) : List String :=
  if s ∈ acc then acc else acc ++ [s]

/-- Embedding of `getUniqueSpecies` from `src/lib/age-utils.ts`:
`[...new Set(data.map(item => item.species))]`. -/
def getUniqueSpecies (data : List PetAgeData) : List String :=
  (data.map (fun item => item.species)).foldl insertUnique []

/-- Embedding of `getBreedsBySpecies` from `src/lib/age-utils.ts`:
`data.filter(item => item.species === species).map(item => item.breed)`. -/
def getBreedsBySpecies (species : String) (data : List PetAgeData) : List String :=
  (data.filter (fun item => item.species == species)).map (fun item => item.breed)

/-- Spec-side description of first-occurrence deduplication: keep the head
and drop its later duplicates before recursing.  Written from the spec's
words ("each distinct value exactly once, in first-occurrence order"). -/
def firstOccurrenceDedup : List String → List String
  | [] => []
  | s :: rest => s :: firstOccurrenceDedup (rest.filter (fun t => t != s))
termination_by l => l.length
decreasing_by
  simp only [List.length_cons]
  exact Nat.lt_succ_of_le (List.length_filter_le _ _)

/-- Spec-side description of the breed enumerator, written from the spec's
words: walk the dataset in order and emit the breed of every record whose
species matches exactly. -/
def breedsFromSpec (species : String) : List PetAgeData → List String
  | [] => []
  | r :: rest =>
    if r.species = species then r.breed :: breedsFromSpec species rest
    else breedsFromSpec species rest

/-- The spec's §3 invariant: the (species, breed) pair is a logical primary
key, so two records of the dataset agreeing on both fields are the same
record. -/
def keyUnique (data : List PetAgeData) : Prop :=
  ∀ r ∈ data, ∀ s ∈ data, r.species = s.species → r.breed = s.breed → r = s

instance (data : List PetAgeData) : Decidable (keyUnique data) := by
  unfold keyUnique
  infer_instance

/-- A dataset used to exercise the theorems on concrete inputs, taken from
the spec's §8 example (one Labrador record) extended with a cat record. -/
def exampleData : List PetAgeData :=
  [⟨"Dog", "Labrador", 2, 21/2, 4⟩, ⟨"Cat", "Siamese", 1, 15, 9⟩]

/-- C1: when the lookup finds a matching record, `calculateHumanAge` returns
exactly the piecewise formula `petAge * firstPhaseValue` for
`petAge ≤ firstPhaseYears` and
`firstPhaseYears * firstPhaseValue + (petAge - firstPhaseYears) * laterPerYear`
otherwise; nothing is rounded or clamped, and the result can be negative or
zero for non-positive `petAge`. -/
theorem calculateHumanAge_piecewise :
    (∀ (species breed : String) (petAge : ℚ) (data : List PetAgeData)
      (entry : PetAgeData),
      data.find? (fun item => item.species == species && item.breed == breed) =
        some entry →
      calculateHumanAge species breed petAge data =
        some (if petAge ≤ entry.firstPhaseYears then petAge * entry.firstPhaseValue
          else entry.firstPhaseYears * entry.firstPhaseValue +
            (petAge - entry.firstPhaseYears) * entry.laterPerYear)) ∧
    (∃ (species breed : String) (petAge : ℚ) (data : List PetAgeData) (r : ℚ),
      petAge < 0 ∧ calculateHumanAge species breed petAge data = some r ∧ r < 0) ∧
    (∃ (species breed : String) (data : List PetAgeData),
      calculateHumanAge species breed 0 data = some 0) := by
  refine ⟨?_, ?_, ?_⟩
  · intro species breed petAge data entry h
    simp only [calculateHumanAge, h]
    split <;> rfl
  · exact ⟨"Dog", "Labrador", -1, exampleData, -(21/2), by norm_num,
      by norm_num [calculateHumanAge, exampleData, List.find?], by norm_num⟩
  · exact ⟨"Dog", "Labrador", exampleData,
      by norm_num [calculateHumanAge, exampleData, List.find?]⟩

/-- Witness for C1 at the spec's example record: age 5 falls in the second
phase and yields 21 + 3·4 = 33. -/
theorem calculateHumanAge_piecewise_witness :
    calculateHumanAge "Dog" "Labrador" 5 exampleData =
      some (if (5:ℚ) ≤ (2:ℚ) then (5:ℚ) * (21/2)
        else (2:ℚ) * (21/2) + ((5:ℚ) - 2) * 4) :=
  calculateHumanAge_piecewise.1 "Dog" "Labrador" 5 exampleData
    ⟨"Dog", "Labrador", 2, 21/2, 4⟩ rfl

/-- C2: when no record matches both the species and the breed exactly,
`calculateHumanAge` returns `none`; and on every input it returns either
`none` or a number (it is total and never throws). -/
theorem calculateHumanAge_notFound :
    ∀ (species breed : String) (petAge : ℚ) (data : List PetAgeData),
      ((∀ r ∈ data, ¬(r.species = species ∧ r.breed = breed)) →
        calculateHumanAge species breed petAge data = none) ∧
      (calculateHumanAge species breed petAge data = none ∨
        ∃ n : ℚ, calculateHumanAge species breed petAge data = some n) := by
  intro species breed petAge data
  constructor
  · intro h
    have hfind :
        data.find? (fun item => item.species == species && item.breed == breed) =
          none := by
      rw [List.find?_eq_none]
      intro x hx
      simpa using h x hx
    simp [calculateHumanAge, hfind]
  · rcases hfind : data.find?
        (fun item => item.species == species && item.breed == breed) with _ | entry
    · exact Or.inl (by simp [calculateHumanAge, hfind])
    · refine Or.inr ?_
      simp only [calculateHumanAge, hfind]
      split <;> exact ⟨_, rfl⟩

/-- Witness for C2: the example dataset has no ("Cat", "Labrador") record,
so the conversion yields `none`. -/
theorem calculateHumanAge_notFound_witness :
    calculateHumanAge "Cat" "Labrador" 3 exampleData = none :=
  (calculateHumanAge_notFound "Cat" "Labrador" 3 exampleData).1 (by decide)

lemma mem_insertUnique (acc : List String) (s x : String) :
    x ∈ insertUnique acc s ↔ x ∈ acc ∨ x = s := by
  unfold insertUnique
  split
  · rename_i hs
    constructor
    · exact fun h => Or.inl h
    · rintro (h | rfl)
      · exact h
      · exact hs
  · simp [List.mem_append]

lemma mem_foldl_insertUnique (l : List String) (acc : List String) (x : String) :
    x ∈ l.foldl insertUnique acc ↔ x ∈ acc ∨ x ∈ l := by
  induction l generalizing acc with
  | nil => simp
  | cons y l ih =>
    simp only [List.foldl_cons, ih, mem_insertUnique, List.mem_cons]
    tauto

lemma nodup_insertUnique (acc : List String) (s : String) (h : acc.Nodup) :
    (insertUnique acc s).Nodup := by
  unfold insertUnique
  split
  · exact h
  · rename_i hs
    simp [List.nodup_append, h, hs]

lemma nodup_foldl_insertUnique (l : List String) (acc : List String)
    (h : acc.Nodup) : (l.foldl insertUnique acc).Nodup := by
  induction l generalizing acc with
  | nil => exact h
  | cons y l ih => exact ih _ (nodup_insertUnique acc y h)

lemma firstOccurrenceDedup_cons (s : String) (t : List String) :
    firstOccurrenceDedup (s :: t) =
      s :: firstOccurrenceDedup (t.filter (fun u => u != s)) := by
  rw [firstOccurrenceDedup]

lemma foldl_insertUnique_eq (l : List String) (acc : List String) :
    l.foldl insertUnique acc =
      acc ++ firstOccurrenceDedup (l.filter (fun s => decide (s ∉ acc))) := by
  induction l generalizing acc with
  | nil => simp [firstOccurrenceDedup]
  | cons x l ih =>
    by_cases hx : x ∈ acc
    · have hstep : insertUnique acc x = acc := by simp [insertUnique, hx]
      rw [List.foldl_cons, hstep, ih, List.filter_cons_of_neg (by simp [hx])]
    · have hstep : insertUnique acc x = acc ++ [x] := by simp [insertUnique, hx]
      have hpt : ∀ s : String,
          (decide (s ∉ acc ++ [x])) = ((s != x) && decide (s ∉ acc)) := by
        intro s
        by_cases h1 : s ∈ acc <;> by_cases h2 : s = x <;>
          simp [h1, h2, List.mem_append]
      rw [List.foldl_cons, hstep, ih, List.filter_cons_of_pos (by simp [hx]),
        firstOccurrenceDedup_cons, List.filter_filter,
        List.filter_congr (fun s _ => hpt s), List.append_assoc,
        List.singleton_append]

/-- C3: the function `getUniqueSpecies` lists exactly the species occurring in the
dataset, each exactly once, and equals the first-occurrence deduplication of
the dataset's species column (first-occurrence order). -/
theorem getUniqueSpecies_spec :
    ∀ data : List PetAgeData,
      (∀ s : String, s ∈ getUniqueSpecies data ↔ ∃ r ∈ data, r.species = s) ∧
      (getUniqueSpecies data).Nodup ∧
      getUniqueSpecies data =
        firstOccurrenceDedup (data.map (fun r => r.species)) := by
  intro data
  refine ⟨?_, ?_, ?_⟩
  · intro s
    rw [getUniqueSpecies, mem_foldl_insertUnique]
    simp [List.mem_map]
  · exact nodup_foldl_insertUnique _ _ List.nodup_nil
  · rw [getUniqueSpecies, foldl_insertUnique_eq]
    simp

/-- Witness for C3 on the example dataset: the two species in dataset
order. -/
theorem getUniqueSpecies_spec_witness :
    "Cat" ∈ getUniqueSpecies exampleData :=
  (getUniqueSpecies_spec exampleData).1 "Cat" |>.mpr
    ⟨⟨"Cat", "Siamese", 1, 15, 9⟩, by simp [exampleData], rfl⟩

lemma getBreedsBySpecies_eq_breedsFromSpec (species : String)
    (data : List PetAgeData) :
    getBreedsBySpecies species data = breedsFromSpec species data := by
  induction data with
  | nil => rfl
  | cons r rest ih =>
    by_cases h : r.species = species
    · unfold getBreedsBySpecies breedsFromSpec
      rw [List.filter_cons_of_pos (by simp [h]), List.map_cons, if_pos h]
      exact congrArg (r.breed :: ·) ih
    · unfold getBreedsBySpecies breedsFromSpec
      rw [List.filter_cons_of_neg (by simp [h]), if_neg h]
      exact ih

lemma count_getBreedsBySpecies (species : String) (data : List PetAgeData)
    (b : String) :
    (getBreedsBySpecies species data).count b =
      (data.filter (fun r => r.species == species && r.breed == b)).length := by
  induction data with
  | nil => rfl
  | cons r rest ih =>
    by_cases h1 : r.species = species <;> by_cases h2 : r.breed = b <;>
      simp [getBreedsBySpecies, List.filter_cons, List.count_cons, h1, h2] <;>
      simpa [getBreedsBySpecies] using ih

/-- C4: the breed enumerator returns exactly the breeds of the records whose
species equals the query, in dataset order (proved by refinement against a
spec-side recursive description), preserving duplicates (proved by a count
identity), and returns the empty list when nothing matches. -/
theorem getBreedsBySpecies_spec :
    ∀ (species : String) (data : List PetAgeData),
      getBreedsBySpecies species data = breedsFromSpec species data ∧
      (∀ b : String, (getBreedsBySpecies species data).count b =
        (data.filter (fun r => r.species == species && r.breed == b)).length) ∧
      ((∀ r ∈ data, r.species ≠ species) → getBreedsBySpecies species data = []) := by
  intro species data
  refine ⟨getBreedsBySpecies_eq_breedsFromSpec species data,
    fun b => count_getBreedsBySpecies species data b, ?_⟩
  intro h
  unfold getBreedsBySpecies
  rw [List.filter_eq_nil_iff.mpr (by simpa using h)]
  rfl

/-- Witness for C4: no cat record matches species "Bird", so the breed list
is empty. -/
theorem getBreedsBySpecies_spec_witness :
    getBreedsBySpecies "Bird" exampleData = [] :=
  (getBreedsBySpecies_spec "Bird" exampleData).2.2 (by decide)

lemma find?_eq_some_of_keyUnique (data : List PetAgeData) (e : PetAgeData)
    (hu : keyUnique data) (he : e ∈ data) :
    data.find? (fun item => item.species == e.species && item.breed == e.breed) =
      some e := by
  rcases hfind : data.find?
      (fun item => item.species == e.species && item.breed == e.breed)
    with _ | r
  · exact absurd (List.find?_eq_none.mp hfind e he) (by simp)
  · have hrmem : r ∈ data := List.mem_of_find?_eq_some hfind
    have hpr := List.find?_some hfind
    simp only [Bool.and_eq_true, beq_iff_eq] at hpr
    exact (hu r hrmem e he hpr.1 hpr.2) ▸ hfind

lemma keyUnique_exampleData : keyUnique exampleData := by
  intro r hr s hs h1 h2
  simp only [exampleData, List.mem_cons, List.not_mem_nil, or_false] at hr hs
  rcases hr with rfl | rfl <;> rcases hs with rfl | rfl <;> simp_all

/-- C5: with the spec's primary-key invariant, for every dataset record with
strictly positive rate fields the conversion is monotone in age: for
`0 ≤ a < b` both conversions succeed and the result at `a` is at most the
result at `b`. -/
theorem calculateHumanAge_monotone :
    ∀ (data : List PetAgeData) (e : PetAgeData) (a b : ℚ),
      keyUnique data → e ∈ data →
      0 < e.firstPhaseYears → 0 < e.firstPhaseValue → 0 < e.laterPerYear →
      0 ≤ a → a < b →
      ∃ x y : ℚ,
        calculateHumanAge e.species e.breed a data = some x ∧
        calculateHumanAge e.species e.breed b data = some y ∧ x ≤ y := by
  intro data e a b hu he hf hv hl ha hab
  have hfind := find?_eq_some_of_keyUnique data e hu he
  simp only [calculateHumanAge, hfind]
  by_cases h1 : a ≤ e.firstPhaseYears
  · by_cases h2 : b ≤ e.firstPhaseYears
    · rw [if_pos h1, if_pos h2]
      exact ⟨_, _, rfl, rfl,
        mul_le_mul_of_nonneg_right hab.le hv.le⟩
    · rw [if_pos h1, if_neg h2]
      refine ⟨_, _, rfl, rfl, ?_⟩
      have t1 : a * e.firstPhaseValue ≤ e.firstPhaseYears * e.firstPhaseValue :=
        mul_le_mul_of_nonneg_right h1 hv.le
      have t2 : 0 < (b - e.firstPhaseYears) * e.laterPerYear :=
        mul_pos (by linarith [not_le.mp h2]) hl
      linarith
  · have h2 : ¬b ≤ e.firstPhaseYears := by
      intro hb
      exact h1 (le_trans hab.le hb)
    rw [if_neg h1, if_neg h2]
    refine ⟨_, _, rfl, rfl, ?_⟩
    have t1 : (a - e.firstPhaseYears) * e.laterPerYear ≤
        (b - e.firstPhaseYears) * e.laterPerYear :=
      mul_le_mul_of_nonneg_right (by linarith) hl.le
    linarith

/-- Witness for C5 on the example dataset: the Labrador conversion at ages 1
and 5 succeeds and is non-decreasing. -/
theorem calculateHumanAge_monotone_witness :
    ∃ x y : ℚ,
      calculateHumanAge "Dog" "Labrador" 1 exampleData = some x ∧
      calculateHumanAge "Dog" "Labrador" 5 exampleData = some y ∧ x ≤ y :=
  calculateHumanAge_monotone exampleData ⟨"Dog", "Labrador", 2, 21/2, 4⟩ 1 5
    keyUnique_exampleData (by simp [exampleData]) (by norm_num) (by norm_num)
    (by norm_num) (by norm_num) (by norm_num)

/-- C6: with the spec's primary-key invariant, converting a record's own
(species, breed) at exactly `firstPhaseYears` yields
`firstPhaseYears * firstPhaseValue`, and the two branch formulas of the
piecewise model agree at the boundary. -/
theorem calculateHumanAge_boundary :
    ∀ (data : List PetAgeData) (e : PetAgeData),
      keyUnique data → e ∈ data →
      calculateHumanAge e.species e.breed e.firstPhaseYears data =
        some (e.firstPhaseYears * e.firstPhaseValue) ∧
      ∀ f v l : ℚ, f * v = f * v + (f - f) * l := by
  intro data e hu he
  refine ⟨?_, fun f v l => by ring⟩
  have hfind := find?_eq_some_of_keyUnique data e hu he
  simp [calculateHumanAge, hfind]

/-- Witness for C6: the Labrador record's boundary age 2 converts to
2 · 10.5. -/
theorem calculateHumanAge_boundary_witness :
    calculateHumanAge "Dog" "Labrador" 2 exampleData = some (2 * (21/2)) :=
  (calculateHumanAge_boundary exampleData ⟨"Dog", "Labrador", 2, 21/2, 4⟩
    keyUnique_exampleData (by simp [exampleData])).1

lemma find?_eq_head?_filter {α : Type} (p : α → Bool) (l : List α) :
    l.find? p = (l.filter p).head? := by
  induction l with
  | nil => rfl
  | cons x l ih =>
    by_cases h : p x
    · rw [List.find?_cons_of_pos _ h, List.filter_cons_of_pos h, List.head?_cons]
    · rw [List.find?_cons_of_neg _ h, List.filter_cons_of_neg h, ih]

/-- A dataset holding two records with the same (species, breed) key, used
to exercise the duplicate policy on a concrete input. -/
def dupData : List PetAgeData :=
  [⟨"Dog", "Pug", 1, 10, 4⟩, ⟨"Dog", "Pug", 3, 2, 1⟩]

/-- C7: when at least one record matches, `calculateHumanAge` computes its
result from the first matching record in dataset order (the head of the
filtered matches), a deterministic duplicate policy. -/
theorem calculateHumanAge_firstMatch :
    ∀ (data : List PetAgeData) (species breed : String) (petAge : ℚ)
      (e : PetAgeData) (rest : List PetAgeData),
      data.filter (fun item => item.species == species && item.breed == breed) =
        e :: rest →
      calculateHumanAge species breed petAge data =
        some (if petAge ≤ e.firstPhaseYears then petAge * e.firstPhaseValue
          else e.firstPhaseYears * e.firstPhaseValue +
            (petAge - e.firstPhaseYears) * e.laterPerYear) := by
  intro data species breed petAge e rest hfilter
  have hfind :
      data.find? (fun item => item.species == species && item.breed == breed) =
        some e := by
    rw [find?_eq_head?_filter, hfilter, List.head?_cons]
  simp only [calculateHumanAge, hfind]
  split <;> rfl

/-- Witness for C7: two records share the ("Dog", "Pug") key; the conversion
at age 2 uses the first one (first phase of length 1, value 10, later rate
4), not the second. -/
theorem calculateHumanAge_firstMatch_witness :
    calculateHumanAge "Dog" "Pug" 2 dupData =
      some (if (2:ℚ) ≤ (1:ℚ) then (2:ℚ) * 10 else (1:ℚ) * 10 + ((2:ℚ) - 1) * 4) :=
  calculateHumanAge_firstMatch dupData "Dog" "Pug" 2
    ⟨"Dog", "Pug", 1, 10, 4⟩ [⟨"Dog", "Pug", 3, 2, 1⟩] rfl

/-- C8: the three core functions are deterministic functions of their
arguments: calls on equal inputs give equal outputs, and the dataset value
itself is never changed (the embedding is purely functional, as is the
source, which only uses non-mutating `find`/`filter`/`map`/`Set`
operations). -/
theorem coreFunctions_pure :
    ∀ (s₁ s₂ b₁ b₂ : String) (a₁ a₂ : ℚ) (d₁ d₂ : List PetAgeData),
      s₁ = s₂ → b₁ = b₂ → a₁ = a₂ → d₁ = d₂ →
      calculateHumanAge s₁ b₁ a₁ d₁ = calculateHumanAge s₂ b₂ a₂ d₂ ∧
      getUniqueSpecies d₁ = getUniqueSpecies d₂ ∧
      getBreedsBySpecies s₁ d₁ = getBreedsBySpecies s₂ d₂ := by
  rintro s₁ s₂ b₁ b₂ a₁ a₂ d₁ d₂ rfl rfl rfl rfl
  exact ⟨rfl, rfl, rfl⟩

/-- Witness for C8: two identical calls on the example dataset agree. -/
theorem coreFunctions_pure_witness :
    calculateHumanAge "Dog" "Labrador" 1 exampleData =
      calculateHumanAge "Dog" "Labrador" 1 exampleData :=
  (coreFunctions_pure "Dog" "Dog" "Labrador" "Labrador" 1 1
    exampleData exampleData rfl rfl rfl rfl).1

lemma mem_getBreedsBySpecies (species : String) (data : List PetAgeData)
    (b : String) :
    b ∈ getBreedsBySpecies species data ↔
      ∃ r ∈ data, r.species = species ∧ r.breed = b := by
  simp only [getBreedsBySpecies, List.mem_map, List.mem_filter, beq_iff_eq]
  constructor
  · rintro ⟨r, ⟨hr, hs⟩, hb⟩
    exact ⟨r, hr, hs, hb⟩
  · rintro ⟨r, hr, hs, hb⟩
    exact ⟨r, ⟨hr, hs⟩, hb⟩

lemma calculateHumanAge_eq_none_iff (species breed : String) (petAge : ℚ)
    (data : List PetAgeData) :
    calculateHumanAge species breed petAge data = none ↔
      ∀ r ∈ data, ¬(r.species = species ∧ r.breed = breed) := by
  unfold calculateHumanAge
  rcases h : data.find? (fun item => item.species == species && item.breed == breed)
    with _ | e
  · simp only [h]
    rw [List.find?_eq_none] at h
    simpa using h
  · simp only [h]
    constructor
    · intro hcontra
      exact absurd hcontra (by split <;> simp)
    · intro hall
      have hmem := List.mem_of_find?_eq_some h
      have hpe := List.find?_some h
      simp only [Bool.and_eq_true, beq_iff_eq] at hpe
      exact absurd hpe (hall e hmem)

/-- C9: the conversion returns `none` exactly when the queried breed is not
among the breeds the enumerator lists for the queried species; in
particular every (species, breed) pair the enumerator offers converts to a
number. -/
theorem calculateHumanAge_none_iff_breed_missing :
    ∀ (species breed : String) (petAge : ℚ) (data : List PetAgeData),
      (calculateHumanAge species breed petAge data = none ↔
        breed ∉ getBreedsBySpecies species data) ∧
      (breed ∈ getBreedsBySpecies species data →
        ∃ n : ℚ, calculateHumanAge species breed petAge data = some n) := by
  intro species breed petAge data
  have hiff : calculateHumanAge species breed petAge data = none ↔
      breed ∉ getBreedsBySpecies species data := by
    rw [calculateHumanAge_eq_none_iff, mem_getBreedsBySpecies]
    push_neg
    tauto
  refine ⟨hiff, ?_⟩
  intro hb
  rcases hsome : calculateHumanAge species breed petAge data with _ | n
  · exact absurd (hiff.mp hsome) (not_not_intro hb)
  · exact ⟨n, rfl⟩

/-- Witness for C9: "Labrador" is offered for "Dog", and the conversion at
age 1 indeed returns a number. -/
theorem calculateHumanAge_none_iff_breed_missing_witness :
    ∃ n : ℚ, calculateHumanAge "Dog" "Labrador" 1 exampleData = some n :=
  (calculateHumanAge_none_iff_breed_missing "Dog" "Labrador" 1 exampleData).2
    (by decide)

lemma mem_getUniqueSpecies (data : List PetAgeData) (s : String) :
    s ∈ getUniqueSpecies data ↔ ∃ r ∈ data, r.species = s := by
  rw [getUniqueSpecies, mem_foldl_insertUnique]
  simp [List.mem_map]

/-- C10: the breed enumerator returns a non-empty list exactly for the
species listed by the species enumerator. -/
theorem getBreedsBySpecies_ne_nil_iff :
    ∀ (s : String) (data : List PetAgeData),
      getBreedsBySpecies s data ≠ [] ↔ s ∈ getUniqueSpecies data := by
  intro s data
  rw [mem_getUniqueSpecies]
  constructor
  · intro h
    rcases List.exists_mem_of_ne_nil _ h with ⟨b, hb⟩
    rcases (mem_getBreedsBySpecies s data b).mp hb with ⟨r, hr, hs, _⟩
    exact ⟨r, hr, hs⟩
  · rintro ⟨r, hr, hs⟩ hnil
    have : r.breed ∈ getBreedsBySpecies s data :=
      (mem_getBreedsBySpecies s data r.breed).mpr ⟨r, hr, hs, rfl⟩
    rw [hnil] at this
    exact absurd this (List.not_mem_nil _)

/-- Witness for C10: "Dog" has a non-empty breed list, hence appears among
the unique species. -/
theorem getBreedsBySpecies_ne_nil_iff_witness :
    "Dog" ∈ getUniqueSpecies exampleData :=
  (getBreedsBySpecies_ne_nil_iff "Dog" exampleData).mp (by decide)

end AgeUtils
